import Mathlib

/-!
Verification of the core pipeline of the sl-cli Stockholm public-transport
client: the departure normalizer, the geospatial nearest-site resolver, the
site-directory cache, the fuzzy name resolver, and the deviation filters.

Modelling conventions (shallow embedding of the Go source):
* Go slices are Lean lists; a Go `nil` slice behaves as the empty list for
  every observation the core performs (`len`, `range`), and is embedded as `[]`.
* Go strings are Lean `String`s.  `strings.ToLower` / `ToUpper` /
  `EqualFold` / `Contains` are modelled character-wise on the underlying
  character list (`lowerStr`, `goToUpper`, `goEqualFold`, `goContains`);
  Go's Unicode case mapping is approximated by `Char.toLower`/`Char.toUpper`,
  which is exact on the ASCII designations and mode names the claims use.
* Go `time.Time` instants are integer seconds; the zero `time.Time` produced
  by a failed `time.ParseInLocation` is modelled by `Option.none`, so a
  departure's `Scheduled`/`Expected` fields carry the parse result directly.
  `int(math.Ceil(d.Minutes()))` on a whole-second duration is the exact
  integer ceiling `ceilMinutes`.
* `float64` coordinates and distances are rationals, and the transcendental
  Haversine `DistanceKm` is abstracted to an arbitrary distance function
  parameter `dist`; every property claimed of `FindNearestSites` is
  independent of the metric.  `sqDist` (squared flat distance, which like
  Haversine vanishes exactly on identical points) instantiates it in
  concrete witnesses.
* `sort.Slice(results, less)` is modelled by `List.mergeSort`, which realises
  the library's contract: the result is a permutation of the input that is
  pairwise ordered by the comparator.  Stability is a property of this model
  only, NOT of `sort.Slice` (the Go library documents the opposite), so no
  stability claim is settled from this model.
* Fallible operations return `Except`/`Option`; the gateway fetch inside
  `GetSitesCached` is passed in as its result value.
-/

namespace SLCLI

/-- Character-wise lower-casing of a Go string, as a character list
(models `strings.ToLower` for comparison purposes). -/
def lowerStr (s : String) : List Char := s.data.map Char.toLower

/-- Models `strings.ToLower` (result as a `String`). -/
def goToLower (s : String) : String := ⟨lowerStr s⟩

/-- Models `strings.ToUpper`. -/
def goToUpper (s : String) : String := ⟨s.data.map Char.toUpper⟩

/-- Models `strings.EqualFold`: equality under simple case folding. -/
def goEqualFold (a b : String) : Bool := lowerStr a == lowerStr b

/-- Models `strings.Contains s sub`: `sub` occurs as a contiguous substring
of `s`. -/
def goContains (s sub : String) : Bool :=
  s.data.tails.any (fun t => sub.data.isPrefixOf t)

/-- Models the `truncate` helper of the departures command: keep a string
whose length is within `maxLen`, otherwise cut it and append an ellipsis
(Go slices bytes; the model slices characters, which agrees on ASCII). -/
def goTruncate (s : String) (maxLen : ℕ) : String :=
  if s.data.length ≤ maxLen then s else ⟨s.data.take maxLen⟩ ++ "..."

/-- Model of `internal/model.Validity` (site validity window). -/
structure Validity where
  fromDate : String := ""
  upto : String := ""
deriving DecidableEq

/-- Model of `internal/model.Site`: a stop/station of the SL network. -/
structure Site where
  id : ℤ := 0
  gid : ℤ := 0
  name : String := ""
  note : String := ""
  abbreviation : String := ""
  aliases : List String := []
  lat : ℚ := 0
  lon : ℚ := 0
  stopAreas : List ℤ := []
  valid : Option Validity := none
deriving DecidableEq

/-- Model of `internal/model.Line`. -/
structure Line where
  id : ℤ := 0
  designation : String := ""
  transportAuthorityID : ℤ := 0
  transportMode : String := ""
  groupOfLines : String := ""
deriving DecidableEq

/-- Model of `internal/model.Journey`. -/
structure Journey where
  id : ℤ := 0
  state : String := ""
  predictionState : String := ""
deriving DecidableEq

/-- Model of `internal/model.StopArea`. -/
structure StopArea where
  id : ℤ := 0
  name : String := ""
  type : String := ""
deriving DecidableEq

/-- Model of `internal/model.StopPoint`. -/
structure StopPoint where
  id : ℤ := 0
  name : String := ""
  designation : String := ""
deriving DecidableEq

/-- Model of `internal/model.Departure`: a raw departure as returned by the gateway.
`scheduled`/`expected` hold the result of parsing the local-time string with
`time.ParseInLocation` (seconds; `none` when unparseable, which is the zero
`time.Time` in the Go code).  The unused `Deviations []any` field is omitted. -/
structure Departure where
  destination : String := ""
  directionCode : ℤ := 0
  direction : String := ""
  state : String := ""
  display : String := ""
  scheduled : Option ℤ := none
  expected : Option ℤ := none
  journey : Option Journey := none
  stopArea : Option StopArea := none
  stopPoint : Option StopPoint := none
  line : Option Line := none
deriving DecidableEq

/-- Model of `internal/model.ParsedDeparture`: the normalized departure record. -/
structure ParsedDeparture where
  line : String := ""
  transportMode : String := ""
  groupOfLines : String := ""
  destination : String := ""
  direction : String := ""
  display : String := ""
  scheduled : Option ℤ := none
  expected : Option ℤ := none
  minutesLeft : ℤ := 0
  state : String := ""
  stopArea : String := ""
  stopPoint : String := ""
  platform : String := ""
  deviations : List String := []
deriving DecidableEq

/-- Model of `internal/model.MessageVariant` of a deviation. -/
structure MessageVariant where
  header : String := ""
  details : String := ""
  scopeAlias : String := ""
  language : String := ""
deriving DecidableEq

/-- Model of `internal/model.DeviationStopArea`. -/
structure DeviationStopArea where
  id : ℤ := 0
  name : String := ""
  transportMode : String := ""
deriving DecidableEq

/-- Model of `internal/model.DeviationScope`. -/
structure DeviationScope where
  stopAreas : List DeviationStopArea := []
  lines : List Line := []
deriving DecidableEq

/-- Model of `internal/model.PublishWindow`. -/
structure PublishWindow where
  fromDate : String := ""
  upto : String := ""
deriving DecidableEq

/-- Model of `internal/model.Priority` of a deviation. -/
structure Priority where
  importanceLevel : ℤ := 0
  influenceLevel : ℤ := 0
  urgencyLevel : ℤ := 0
deriving DecidableEq

/-- Model of `internal/model.Deviation`: a service disruption. -/
structure Deviation where
  version : ℤ := 0
  created : String := ""
  modified : String := ""
  deviationCaseID : ℤ := 0
  publish : Option PublishWindow := none
  priority : Option Priority := none
  messageVariants : List MessageVariant := []
  scope : Option DeviationScope := none
deriving DecidableEq

/-- The exact integer ceiling of `s / 60` for `s` in seconds: models
`int(math.Ceil(d.Minutes()))` for a whole-second duration `d`
(`ceilMinutes_eq_ceil` below proves it equals `⌈s / 60⌉`). -/
def ceilMinutes (s : ℤ) : ℤ := -((-s) / 60)

/-- Normalization of one raw departure (the loop body of
`api.ParseDepartures`), with `now` the single injected clock reading. -/
def parseDeparture (now : ℤ) (d : Departure) : ParsedDeparture :=
  let lineDesignation := match d.line with | some l => l.designation | none => ""
  let mode := match d.line with | some l => l.transportMode | none => ""
  let group := match d.line with | some l => l.groupOfLines | none => ""
  let areaName := match d.stopArea with | some a => a.name | none => ""
  let pointName := match d.stopPoint with | some p => p.name | none => ""
  let platform := match d.stopPoint with | some p => p.designation | none => ""
  let ref : Option ℤ := match d.expected with | some e => some e | none => d.scheduled
  let minutes : ℤ := match ref with
    | none => 0
    | some r => if ceilMinutes (r - now) < 0 then 0 else ceilMinutes (r - now)
  { destination := d.destination
    direction := d.direction
    display := d.display
    state := d.state
    line := lineDesignation
    transportMode := mode
    groupOfLines := group
    stopArea := areaName
    stopPoint := pointName
    platform := platform
    scheduled := d.scheduled
    expected := d.expected
    minutesLeft := minutes }

/-- Model of `api.ParseDepartures`: normalize every raw departure in order. -/
def ParseDepartures (now : ℤ) (departures : List Departure) : List ParsedDeparture :=
  departures.map (parseDeparture now)

/-- Model of `api.FilterByTransportMode`. -/
def FilterByTransportMode (deps : List ParsedDeparture) (mode : String) :
    List ParsedDeparture :=
  if mode = "" then deps
  else deps.filter (fun d => goEqualFold d.transportMode (goToUpper mode))

/-- Model of `api.FilterByLine`. -/
def FilterByLine (deps : List ParsedDeparture) (line : String) :
    List ParsedDeparture :=
  if line = "" then deps
  else deps.filter (fun d => goEqualFold d.line line)

/-- Model of `api.FilterByDirection`. -/
def FilterByDirection (deps : List ParsedDeparture) (direction : String) :
    List ParsedDeparture :=
  if direction = "" then deps
  else
    deps.filter (fun d =>
      goContains (goToLower d.destination) (goToLower direction) ||
        goContains (goToLower d.direction) (goToLower direction))

/-- Model of `api.SiteWithDistance`.  `FindNearestSites` never assigns `DistanceM`, so
it keeps the zero value there. -/
structure SiteWithDistance where
  site : Site
  distanceKm : ℚ
  distanceM : ℤ
deriving DecidableEq

/-- The filtering loop of `api.FindNearestSites`: every site whose computed
distance is within the radius, paired with that distance, in input order. -/
def sitesWithinRadius (dist : ℚ → ℚ → ℚ → ℚ → ℚ) (sites : List Site)
    (lat lon radiusKm : ℚ) : List SiteWithDistance :=
  sites.filterMap (fun s =>
    if dist lat lon s.lat s.lon ≤ radiusKm then
      some ⟨s, dist lat lon s.lat s.lon, 0⟩
    else none)

/-- Model of `api.FindNearestSites`, parametrised by the distance function `dist`
(the Go code uses the Haversine `DistanceKm`; see the module docstring).
The `sort.Slice` call is modelled by `List.mergeSort` on the same
comparator. -/
def FindNearestSites (dist : ℚ → ℚ → ℚ → ℚ → ℚ) (sites : List Site)
    (lat lon radiusKm : ℚ) : List SiteWithDistance :=
  (sitesWithinRadius dist sites lat lon radiusKm).mergeSort
    (fun a b => decide (a.distanceKm ≤ b.distanceKm))

/-- Squared flat distance: a concrete computable distance function used to
instantiate `dist` in witnesses.  Like the Haversine distance it is
nonnegative and exactly `0` on identical coordinate pairs. -/
def sqDist (lat1 lon1 lat2 lon2 : ℚ) : ℚ :=
  (lat2 - lat1) * (lat2 - lat1) + (lon2 - lon1) * (lon2 - lon1)

/-- Model of `api.SiteCache`: the cached snapshot and its fetch timestamp (seconds). -/
structure SiteCache where
  sites : List Site
  fetchedAt : ℤ
deriving DecidableEq

/-- Model of `api.siteCacheTTL = 5 * time.Minute`, in seconds. -/
def siteCacheTTL : ℤ := 300

/-- Model of `api.GetSitesCached`: return the cached snapshot when it is non-empty and
fresh, otherwise consult the gateway (whose result for this call is
`fetchResult`) and replace the snapshot on success.  Returns the reply and
the cache state after the call. -/
def GetSitesCached (fetchResult : Except String (List Site)) (now : ℤ)
    (c : SiteCache) : Except String (List Site) × SiteCache :=
  if 0 < c.sites.length ∧ now - c.fetchedAt < siteCacheTTL then
    (Except.ok c.sites, c)
  else
    match fetchResult with
    | Except.error e => (Except.error e, c)
    | Except.ok sites => (Except.ok sites, ⟨sites, now⟩)

/-- Outcome of `cmd.resolveSiteID`: the resolved ID, an ambiguity error
carrying every candidate's ID and name (the pairs the code prints before
failing), or a not-found error. -/
inductive ResolveResult where
  | found (id : ℤ)
  | ambiguous (candidates : List (ℤ × String))
  | notFound
deriving DecidableEq

/-- The post-loop outcome policy of `cmd.resolveSiteID`: one collected match
resolves, several are ambiguous, none is not-found. -/
def finalizeMatches (ms : List (ℤ × String)) : ResolveResult :=
  match ms with
  | [m] => ResolveResult.found m.1
  | [] => ResolveResult.notFound
  | ms => ResolveResult.ambiguous ms

/-- The scan loop of `cmd.resolveSiteID`: return at the first exact
(case-insensitive) primary-name match, otherwise collect substring matches
of the primary name in order. -/
def resolveTail (nameLower : String) (acc : List (ℤ × String)) :
    List Site → ResolveResult
  | [] => finalizeMatches acc
  | s :: rest =>
    if goToLower s.name = nameLower then ResolveResult.found s.id
    else if goContains (goToLower s.name) nameLower then
      resolveTail nameLower (acc ++ [(s.id, s.name)]) rest
    else resolveTail nameLower acc rest

/-- Model of `cmd.resolveSiteID` (the pure resolution over an already-fetched site
list). -/
def resolveSiteID (sites : List Site) (name : String) : ResolveResult :=
  resolveTail (goToLower name) [] sites

/-- Model of `cmd.filterDeviationsByLine`: keep the deviations whose scope lists at
least one line whose designation is in the requested set
(case-insensitively). -/
def filterDeviationsByLine (devs : List Deviation) (designations : List String) :
    List Deviation :=
  let designSet := designations.map goToLower
  devs.filter (fun dev =>
    match dev.scope with
    | none => false
    | some sc => sc.lines.any (fun l => designSet.contains (goToLower l.designation)))

/-- Model of `cmd.deviationSummary` (the JSON summary record built per deviation). -/
structure DeviationSummary where
  line : String := ""
  header : String := ""
  details : String := ""
  scope : String := ""
deriving DecidableEq

/-- The set of line designations present in a departure list (the `lineSet`
map of `cmd.fetchRelevantDeviations`; only membership is consulted). -/
def lineSetOf (deps : List ParsedDeparture) : List String :=
  (deps.map (fun d => d.line)).filter (fun l => l != "")

/-- The per-deviation body of the summarising loop in
`cmd.fetchRelevantDeviations`: skip a scope-less deviation, find the first
scope line in the departure line set, then emit the first message variant
that is English, or Swedish when it is the only variant; the trailing
`break` means at most one summary per deviation. -/
def summarizeDeviation (lineSet : List String) (dev : Deviation) :
    Option DeviationSummary :=
  match dev.scope with
  | none => none
  | some sc =>
    match sc.lines.find? (fun l => lineSet.contains l.designation) with
    | none => none
    | some line =>
      match dev.messageVariants.find? (fun m =>
          m.language == "en" || (m.language == "sv" && dev.messageVariants.length == 1)) with
      | none => none
      | some msg =>
        some { line := line.designation
               header := msg.header
               details := goTruncate msg.details 150
               scope := msg.scopeAlias }

/-- The pure tail of `cmd.fetchRelevantDeviations`, applied to the fetched
deviation list: when no departure carries a line designation the function
returns before fetching; otherwise each deviation contributes at most one
summary, in order. -/
def fetchRelevantDeviations (deps : List ParsedDeparture) (devs : List Deviation) :
    List DeviationSummary :=
  if lineSetOf deps = [] then []
  else devs.filterMap (summarizeDeviation (lineSetOf deps))

/-! ### Helper lemmas -/

lemma ceilMinutes_eq_ceil (s : ℤ) : ceilMinutes s = ⌈(s : ℚ) / 60⌉ := by
  have h1 : ⌊-((s : ℚ) / 60)⌋ = -⌈(s : ℚ) / 60⌉ := Int.floor_neg
  have h2 : ⌊((-s : ℤ) : ℚ) / ((60 : ℕ) : ℚ)⌋ = (-s) / ((60 : ℕ) : ℤ) :=
    Rat.floor_intCast_div_natCast (-s) 60
  have h3 : -((s : ℚ) / 60) = ((-s : ℤ) : ℚ) / ((60 : ℕ) : ℚ) := by push_cast; ring
  rw [h3, h2] at h1
  have h4 : ((60 : ℕ) : ℤ) = 60 := rfl
  rw [ceilMinutes]
  omega

lemma clampNonneg_eq_max (x : ℤ) : (if x < 0 then 0 else x) = max x 0 := by
  rcases lt_or_le x 0 with h | h
  · simp [if_pos h, max_eq_right h.le]
  · simp [if_neg (not_lt.2 h), max_eq_left h]

lemma find?_ext {α : Type} (p q : α → Bool) (h : ∀ a, p a = q a) :
    ∀ l : List α, l.find? p = l.find? q := by
  intro l
  induction l with
  | nil => rfl
  | cons a t ih => simp only [List.find?_cons, h a, ih]

lemma contains_iff_mem (l : List String) (a : String) : l.contains a = true ↔ a ∈ l := by
  simp [List.contains, List.elem_iff]

lemma resolveTail_found (nl : String) :
    ∀ (sites : List Site) (s : Site),
      sites.find? (fun t => goToLower t.name == nl) = some s →
      ∀ acc, resolveTail nl acc sites = ResolveResult.found s.id := by
  intro sites
  induction sites with
  | nil => intro s h acc; cases h
  | cons a rest ih =>
    intro s h acc
    rw [List.find?_cons] at h
    by_cases ha : goToLower a.name = nl
    · have hb : (goToLower a.name == nl) = true := beq_iff_eq.2 ha
      simp only [hb] at h
      obtain rfl := Option.some.inj h
      simp only [resolveTail, if_pos ha]
    · have hb : (goToLower a.name == nl) = false := beq_eq_false_iff_ne.2 ha
      simp only [hb] at h
      by_cases hc : goContains (goToLower a.name) nl = true
      · simp only [resolveTail, if_neg ha, if_pos hc]
        exact ih s h _
      · simp only [resolveTail, if_neg ha, if_neg hc]
        exact ih s h _

lemma resolveTail_noExact (nl : String) :
    ∀ sites : List Site, (∀ s ∈ sites, ¬(goToLower s.name = nl)) →
      ∀ acc, resolveTail nl acc sites =
        finalizeMatches (acc ++ (sites.filter
          (fun s => goContains (goToLower s.name) nl)).map (fun s => (s.id, s.name))) := by
  intro sites
  induction sites with
  | nil => intro h acc; simp [resolveTail]
  | cons a rest ih =>
    intro h acc
    have ha := h a (List.mem_cons_self a rest)
    have hrest : ∀ s ∈ rest, ¬(goToLower s.name = nl) :=
      fun s hs => h s (List.mem_cons_of_mem a hs)
    by_cases hc : goContains (goToLower a.name) nl = true
    · simp only [resolveTail, if_neg ha, if_pos hc]
      rw [ih hrest (acc ++ [(a.id, a.name)]), List.filter_cons, if_pos hc, List.map_cons]
      simp
    · simp only [resolveTail, if_neg ha, if_neg hc]
      rw [ih hrest acc, List.filter_cons, if_neg hc]

/-! ### Claim theorems -/

/-- Claim C2: the normalizer computes minutes-remaining from the parsed
"expected" instant, falls back to "scheduled" when "expected" is absent,
leaves zero when both are absent, and otherwise produces
`ceil((reference - now) in minutes)` clamped to `0`, hence never negative. -/
theorem parseDeparture_minutesLeft (d : Departure) (now : ℤ) :
    (∀ e, d.expected = some e →
      (parseDeparture now d).minutesLeft = max (ceilMinutes (e - now)) 0 ∧
      (parseDeparture now d).minutesLeft = max ⌈((e - now : ℤ) : ℚ) / 60⌉ 0) ∧
    (d.expected = none → ∀ s, d.scheduled = some s →
      (parseDeparture now d).minutesLeft = max (ceilMinutes (s - now)) 0 ∧
      (parseDeparture now d).minutesLeft = max ⌈((s - now : ℤ) : ℚ) / 60⌉ 0) ∧
    (d.expected = none → d.scheduled = none → (parseDeparture now d).minutesLeft = 0) ∧
    0 ≤ (parseDeparture now d).minutesLeft := by
  refine ⟨?_, ?_, ?_, ?_⟩
  · intro e he
    have h : (parseDeparture now d).minutesLeft = max (ceilMinutes (e - now)) 0 := by
      simp [parseDeparture, he, clampNonneg_eq_max]
    exact ⟨h, by rw [h, ceilMinutes_eq_ceil]⟩
  · intro he s hs
    have h : (parseDeparture now d).minutesLeft = max (ceilMinutes (s - now)) 0 := by
      simp [parseDeparture, he, hs, clampNonneg_eq_max]
    exact ⟨h, by rw [h, ceilMinutes_eq_ceil]⟩
  · intro he hs
    simp [parseDeparture, he, hs]
  · rcases he : d.expected with _ | e
    · rcases hs : d.scheduled with _ | s
      · simp [parseDeparture, he, hs]
      · simp [parseDeparture, he, hs, clampNonneg_eq_max]
    · simp [parseDeparture, he, clampNonneg_eq_max]

/-- Concrete instance of C2: a departure whose "expected" instant lies one
minute in the past is "due now" (zero minutes left), never negative. -/
theorem parseDeparture_minutesLeft_witness :
    (parseDeparture 1000 { expected := some 940, scheduled := some 910, state := "ATSTOP" }).minutesLeft
      = max (ceilMinutes (940 - 1000)) 0 ∧
    (parseDeparture 1000 { expected := some 940, scheduled := some 910, state := "ATSTOP" }).minutesLeft
      = 0 := by
  have h := ((parseDeparture_minutesLeft
    { expected := some 940, scheduled := some 910, state := "ATSTOP" } 1000).1 940 rfl).1
  exact ⟨h, by rw [h]; decide⟩

/-- Claim C9: normalization is order-preserving and 1:1 with its input, and
an absent nested line / stop-area / stop-point record yields empty-string
fields, never an error. -/
theorem parseDepartures_order_preserving (now : ℤ) (deps : List Departure) :
    (ParseDepartures now deps).length = deps.length ∧
    (∀ (i : ℕ) (h1 : i < (ParseDepartures now deps).length) (h2 : i < deps.length),
      (ParseDepartures now deps).get ⟨i, h1⟩ = parseDeparture now (deps.get ⟨i, h2⟩)) ∧
    (∀ d : Departure, d.line = none →
      (parseDeparture now d).line = "" ∧ (parseDeparture now d).transportMode = "" ∧
        (parseDeparture now d).groupOfLines = "") ∧
    (∀ d : Departure, d.stopArea = none → (parseDeparture now d).stopArea = "") ∧
    (∀ d : Departure, d.stopPoint = none →
      (parseDeparture now d).stopPoint = "" ∧ (parseDeparture now d).platform = "") := by
  refine ⟨by simp [ParseDepartures], ?_, ?_, ?_, ?_⟩
  · intro i h1 h2
    simp [ParseDepartures, List.get_eq_getElem, List.getElem_map]
  · intro d hd
    simp [parseDeparture, hd]
  · intro d hd
    simp [parseDeparture, hd]
  · intro d hd
    simp [parseDeparture, hd]

/-- Concrete instance of C9: the first normalized departure of a batch is the
normalization of the first raw departure, with empty-string line fields for
an absent line record. -/
theorem parseDepartures_order_preserving_witness :
    (ParseDepartures 0 [{ destination := "Tanto", line := none }]).get ⟨0, by decide⟩ =
      parseDeparture 0 { destination := "Tanto", line := none } :=
  (parseDepartures_order_preserving 0 [{ destination := "Tanto", line := none }]).2.1 0
    (by decide) (by decide)

/-- Claim C5: the core never hands `null` to the presentation layer — on the
empty input, and on inputs where nothing matches, `ParseDepartures`,
`FindNearestSites` and the filter functions all return the empty list
(Go's `nil` slice, which iterates as an empty list), never an error. -/
theorem core_collections_never_null :
    (∀ now : ℤ, ParseDepartures now [] = []) ∧
    (∀ mode, FilterByTransportMode [] mode = []) ∧
    (∀ line, FilterByLine [] line = []) ∧
    (∀ dir, FilterByDirection [] dir = []) ∧
    (∀ (dist : ℚ → ℚ → ℚ → ℚ → ℚ) (lat lon r : ℚ), FindNearestSites dist [] lat lon r = []) ∧
    (∀ deps mode, mode ≠ "" →
      (∀ d ∈ deps, goEqualFold d.transportMode (goToUpper mode) = false) →
      FilterByTransportMode deps mode = []) ∧
    (∀ (dist : ℚ → ℚ → ℚ → ℚ → ℚ) sites (lat lon r : ℚ),
      (∀ s ∈ sites, ¬ dist lat lon s.lat s.lon ≤ r) →
      FindNearestSites dist sites lat lon r = []) := by
  refine ⟨fun _ => rfl, ?_, ?_, ?_, ?_, ?_, ?_⟩
  · intro mode
    by_cases h : mode = "" <;> simp [FilterByTransportMode, h]
  · intro line
    by_cases h : line = "" <;> simp [FilterByLine, h]
  · intro dir
    by_cases h : dir = "" <;> simp [FilterByDirection, h]
  · intro dist lat lon r
    simp [FindNearestSites, sitesWithinRadius]
  · intro deps mode hm h
    rw [FilterByTransportMode, if_neg hm, List.filter_eq_nil_iff]
    intro d hd
    simp [h d hd]
  · intro dist sites lat lon r h
    rw [FindNearestSites]
    have : sitesWithinRadius dist sites lat lon r = [] := by
      rw [sitesWithinRadius, List.filterMap_eq_nil_iff]
      intro s hs
      simp [if_neg (h s hs)]
    rw [this, List.mergeSort_nil]

/-- Concrete instance of C5: filtering a nonempty departure list by a mode
that matches nothing yields the empty list, not an error. -/
theorem core_collections_never_null_witness :
    FilterByTransportMode [{ transportMode := "BUS" }] "METRO" = [] :=
  core_collections_never_null.2.2.2.2.2.1 [{ transportMode := "BUS" }] "METRO"
    (by decide) (by decide)

/-- Claim C6: `GetSitesCached` returns a fresh non-empty cached snapshot
unchanged without consulting the gateway; otherwise it fetches, and on
success replaces snapshot and timestamp, while on failure it fails with the
fetch error and leaves the cached snapshot and timestamp unchanged (no
stale-on-error fallback). -/
theorem getSitesCached_spec (fetchResult : Except String (List Site)) (now : ℤ)
    (c : SiteCache) :
    (0 < c.sites.length → now - c.fetchedAt < siteCacheTTL →
      GetSitesCached fetchResult now c = (Except.ok c.sites, c)) ∧
    (∀ e, fetchResult = Except.error e →
      ¬(0 < c.sites.length ∧ now - c.fetchedAt < siteCacheTTL) →
      GetSitesCached fetchResult now c = (Except.error e, c)) ∧
    (∀ l, fetchResult = Except.ok l →
      ¬(0 < c.sites.length ∧ now - c.fetchedAt < siteCacheTTL) →
      GetSitesCached fetchResult now c = (Except.ok l, ⟨l, now⟩)) := by
  refine ⟨?_, ?_, ?_⟩
  · intro h1 h2
    rw [GetSitesCached.eq_def, if_pos ⟨h1, h2⟩]
  · intro e he h
    rw [GetSitesCached.eq_def, if_neg h, he]
  · intro l hl h
    rw [GetSitesCached.eq_def, if_neg h, hl]

/-- Concrete instance of C6: a failed gateway fetch on an expired cache
returns the fetch error and leaves the previously cached snapshot and
timestamp untouched. -/
theorem getSitesCached_spec_witness :
    GetSitesCached (Except.error ("gateway down")) 600 ⟨[{ id := 1, name := "A" }], 200⟩ =
      (Except.error ("gateway down"), ⟨[{ id := 1, name := "A" }], 200⟩) :=
  (getSitesCached_spec (Except.error ("gateway down")) 600
    ⟨[{ id := 1, name := "A" }], 200⟩).2.1 ("gateway down") rfl (by decide)

/-- Claim C1: `FindNearestSites` returns exactly the sites whose distance to
the query point is within the radius, each paired with that distance,
sorted ascending by distance, and the call is deterministic (idempotent on
equal inputs).  The statement holds for every distance function, in
particular for the Haversine `DistanceKm` of the Go code. -/
theorem findNearestSites_exact_sorted (dist : ℚ → ℚ → ℚ → ℚ → ℚ) (sites : List Site)
    (lat lon r : ℚ) :
    (FindNearestSites dist sites lat lon r).Perm (sitesWithinRadius dist sites lat lon r) ∧
    (∀ sw : SiteWithDistance, sw ∈ FindNearestSites dist sites lat lon r ↔
      (sw.site ∈ sites ∧ sw.distanceKm = dist lat lon sw.site.lat sw.site.lon ∧
        sw.distanceKm ≤ r ∧ sw.distanceM = 0)) ∧
    (FindNearestSites dist sites lat lon r).Pairwise
      (fun a b => a.distanceKm ≤ b.distanceKm) ∧
    FindNearestSites dist sites lat lon r = FindNearestSites dist sites lat lon r := by
  have hperm : (FindNearestSites dist sites lat lon r).Perm
      (sitesWithinRadius dist sites lat lon r) :=
    List.mergeSort_perm (sitesWithinRadius dist sites lat lon r) _
  have hmem : ∀ sw : SiteWithDistance, sw ∈ sitesWithinRadius dist sites lat lon r ↔
      (sw.site ∈ sites ∧ sw.distanceKm = dist lat lon sw.site.lat sw.site.lon ∧
        sw.distanceKm ≤ r ∧ sw.distanceM = 0) := by
    intro sw
    constructor
    · intro h
      rw [sitesWithinRadius] at h
      obtain ⟨s, hs, hf⟩ := List.mem_filterMap.1 h
      by_cases hle : dist lat lon s.lat s.lon ≤ r
      · rw [if_pos hle] at hf
        obtain rfl : (⟨s, dist lat lon s.lat s.lon, 0⟩ : SiteWithDistance) = sw :=
          Option.some.inj hf
        exact ⟨hs, rfl, hle, rfl⟩
      · rw [if_neg hle] at hf
        exact absurd hf (by simp)
    · rintro ⟨hsite, hdk, hle, hdm⟩
      obtain ⟨s0, dk0, dm0⟩ := sw
      simp only at hsite hdk hle hdm
      subst hdk
      subst hdm
      rw [sitesWithinRadius]
      exact List.mem_filterMap.2 ⟨s0, hsite, by rw [if_pos hle]⟩
  have hsorted : (FindNearestSites dist sites lat lon r).Pairwise
      (fun a b => a.distanceKm ≤ b.distanceKm) := by
    have h := @List.sorted_mergeSort SiteWithDistance
      (fun a b : SiteWithDistance => decide (a.distanceKm ≤ b.distanceKm))
      (fun a b c hab hbc => by
        simp only [decide_eq_true_eq] at hab hbc ⊢
        exact le_trans hab hbc)
      (fun a b => by
        simp only [Bool.or_eq_true, decide_eq_true_eq]
        exact le_total a.distanceKm b.distanceKm)
      (sitesWithinRadius dist sites lat lon r)
    exact h.imp (by simp only [decide_eq_true_eq]; exact fun h => h)
  exact ⟨hperm, fun sw => (hperm.mem_iff).trans (hmem sw), hsorted, rfl⟩

/-- Concrete instance of C1: a site at the query point itself, paired with
its (zero) distance, is a member of the result at radius `0`. -/
theorem findNearestSites_exact_sorted_witness :
    (⟨{ id := 7, name := "Origin", lat := 59, lon := 18 }, sqDist 59 18 59 18, 0⟩ :
        SiteWithDistance) ∈
      FindNearestSites sqDist [{ id := 7, name := "Origin", lat := 59, lon := 18 }] 59 18 0 :=
  ((findNearestSites_exact_sorted sqDist
      [{ id := 7, name := "Origin", lat := 59, lon := 18 }] 59 18 0).2.1 _).2
    ⟨by decide, rfl, by simp [sqDist], rfl⟩

/-- Counterexample to Claim C4 as stated: with radius exactly `0` and a site
at distance exactly `0` from the query point, `FindNearestSites` returns
that site (the radius test is `d <= radiusKm`), not the empty list. -/
theorem findNearestSites_zero_radius_counterexample :
    FindNearestSites sqDist [{ id := 7, name := "Origin", lat := 59, lon := 18 }] 59 18 0 =
      [⟨{ id := 7, name := "Origin", lat := 59, lon := 18 }, 0, 0⟩] ∧
    sqDist 59 18 59 18 = 0 ∧ (0 : ℚ) ≤ 0 := by
  have hW : sitesWithinRadius sqDist [{ id := 7, name := "Origin", lat := 59, lon := 18 }]
      59 18 0 = [⟨{ id := 7, name := "Origin", lat := 59, lon := 18 }, 0, 0⟩] := by
    norm_num [sitesWithinRadius, sqDist, List.filterMap_cons, List.filterMap_nil]
  refine ⟨?_, by norm_num [sqDist], le_refl 0⟩
  rw [FindNearestSites, hW, List.mergeSort_singleton]

/-- Claim C4 (amended): for a nonnegative distance function — the Haversine
distance is nonnegative — a strictly negative radius yields the empty
result, never an error; at radius exactly `0`, sites at distance `0` are
included (see the counterexample). -/
theorem findNearestSites_negative_radius (dist : ℚ → ℚ → ℚ → ℚ → ℚ)
    (sites : List Site) (lat lon r : ℚ)
    (hnn : ∀ a b c d2 : ℚ, 0 ≤ dist a b c d2) (hr : r < 0) :
    FindNearestSites dist sites lat lon r = [] := by
  rw [FindNearestSites]
  have h : sitesWithinRadius dist sites lat lon r = [] := by
    rw [sitesWithinRadius, List.filterMap_eq_nil_iff]
    intro s hs
    rw [if_neg]
    intro hle
    exact absurd ((hnn lat lon s.lat s.lon).trans hle) (not_le.2 hr)
  rw [h, List.mergeSort_nil]

/-- Concrete instance of the amended C4: radius `-1` yields the empty list. -/
theorem findNearestSites_negative_radius_witness :
    FindNearestSites sqDist [{ id := 7, name := "Origin", lat := 59, lon := 18 }] 59 18 (-1)
      = [] :=
  findNearestSites_negative_radius sqDist
    [{ id := 7, name := "Origin", lat := 59, lon := 18 }] 59 18 (-1)
    (fun a b c d2 => add_nonneg (mul_self_nonneg _) (mul_self_nonneg _)) (by decide)

/-- Claim C7: a deviation appears in the line-filtered result exactly when
its scope is present and lists at least one line whose designation,
compared case-insensitively, is in the requested set; a deviation with no
scope is excluded from every line-filtered result. -/
theorem filterDeviationsByLine_iff (devs : List Deviation) (designations : List String) :
    (∀ dev : Deviation, dev ∈ filterDeviationsByLine devs designations ↔
      (dev ∈ devs ∧ ∃ sc, dev.scope = some sc ∧
        ∃ l ∈ sc.lines, goToLower l.designation ∈ designations.map goToLower)) ∧
    (∀ dev : Deviation, dev.scope = none →
      dev ∉ filterDeviationsByLine devs designations) := by
  have hchar : ∀ dev : Deviation, dev ∈ filterDeviationsByLine devs designations ↔
      (dev ∈ devs ∧ ∃ sc, dev.scope = some sc ∧
        ∃ l ∈ sc.lines, goToLower l.designation ∈ designations.map goToLower) := by
    intro dev
    simp only [filterDeviationsByLine]
    constructor
    · intro h
      obtain ⟨hd, hp⟩ := List.mem_filter.1 h
      refine ⟨hd, ?_⟩
      rcases hsc : dev.scope with _ | sc
      · rw [hsc] at hp
        exact absurd hp (by simp)
      · rw [hsc] at hp
        simp only [List.any_eq_true] at hp
        obtain ⟨l, hl, hcont⟩ := hp
        exact ⟨sc, rfl, l, hl, (contains_iff_mem _ _).1 hcont⟩
    · rintro ⟨hd, sc, hsc, l, hl, hmem⟩
      refine List.mem_filter.2 ⟨hd, ?_⟩
      rw [hsc]
      simp only [List.any_eq_true]
      exact ⟨l, hl, (contains_iff_mem _ _).2 hmem⟩
  refine ⟨hchar, fun dev hnone hmem => ?_⟩
  obtain ⟨-, sc, hsc, -⟩ := (hchar dev).1 hmem
  rw [hnone] at hsc
  exact Option.noConfusion hsc

/-- Concrete instance of C7: a scope-less deviation is excluded from the
line-filtered result even though its message mentions the line. -/
theorem filterDeviationsByLine_iff_witness :
    ({ messageVariants := [{ header := "Bus 55 delayed", language := "en" }],
       scope := none } : Deviation) ∉
      filterDeviationsByLine
        [{ messageVariants := [{ header := "Bus 55 delayed", language := "en" }],
           scope := none }] ["55"] :=
  (filterDeviationsByLine_iff
      [{ messageVariants := [{ header := "Bus 55 delayed", language := "en" }],
         scope := none }] ["55"]).2
    { messageVariants := [{ header := "Bus 55 delayed", language := "en" }], scope := none }
    rfl

/-- Claim C8: when a summarized deviation has several message variants the
English one (the first such) is preferred; when the only variant is Swedish
it is used; and each deviation yields at most one summary, so both
languages are never emitted for one deviation. -/
theorem deviation_language_preference (lineSet : List String) (dev : Deviation) :
    (2 ≤ dev.messageVariants.length → ∀ s,
      summarizeDeviation lineSet dev = some s →
      ∃ v ∈ dev.messageVariants,
        dev.messageVariants.find? (fun m => m.language == "en") = some v ∧
        v.language = "en" ∧ s.header = v.header ∧ s.details = goTruncate v.details 150 ∧
        s.scope = v.scopeAlias) ∧
    (∀ v, dev.messageVariants = [v] → v.language = "sv" →
      ∀ sc line, dev.scope = some sc →
        sc.lines.find? (fun l => lineSet.contains l.designation) = some line →
        summarizeDeviation lineSet dev =
          some ⟨line.designation, v.header, goTruncate v.details 150, v.scopeAlias⟩) ∧
    (∀ deps (devsAll : List Deviation),
      (fetchRelevantDeviations deps devsAll).length ≤ devsAll.length) := by
  refine ⟨?_, ?_, ?_⟩
  · intro h2 s hs
    rcases hsc : dev.scope with _ | sc
    · simp only [summarizeDeviation, hsc] at hs
      cases hs
    · rcases hline : sc.lines.find? (fun l => lineSet.contains l.designation) with _ | line
      · simp only [summarizeDeviation, hsc, hline] at hs
        cases hs
      · have hfalse : (dev.messageVariants.length == 1) = false :=
          beq_eq_false_iff_ne.2 (by omega)
        have hext : dev.messageVariants.find? (fun m =>
            m.language == "en" || (m.language == "sv" && (dev.messageVariants.length == 1)))
            = dev.messageVariants.find? (fun m => m.language == "en") :=
          find?_ext _ _ (fun m => by rw [hfalse, Bool.and_false, Bool.or_false])
            dev.messageVariants
        rcases hmsg : dev.messageVariants.find? (fun m => m.language == "en") with _ | msg
        · simp only [summarizeDeviation, hsc, hline, hext, hmsg] at hs
          cases hs
        · simp only [summarizeDeviation, hsc, hline, hext, hmsg, Option.some.injEq] at hs
          subst hs
          have hp := @List.find?_some MessageVariant (fun m => m.language == "en") msg
            dev.messageVariants hmsg
          exact ⟨msg, List.mem_of_find?_eq_some hmsg, hmsg, beq_iff_eq.1 hp, rfl, rfl, rfl⟩
  · intro v hv hsv sc line hsc hline
    simp only [summarizeDeviation, hsc, hline, hv]
    simp [List.find?_cons, hsv]
  · intro deps devsAll
    rw [fetchRelevantDeviations]
    split
    · exact Nat.zero_le _
    · exact List.length_filterMap_le _ _

/-- Counterexample to Claim C3 as stated: `resolveSiteID` never consults
aliases.  For a site whose alias is exactly the queried name (a substring
match on the alias, and the only candidate), the claim requires resolution
to that site's ID, but the code reports "not found". -/
theorem resolveSiteID_alias_counterexample :
    resolveSiteID [{ id := 1, name := "Slussen", aliases := ["Karlaplan"] }] "Karlaplan"
      = ResolveResult.notFound ∧
    ({ id := 1, name := "Slussen", aliases := ["Karlaplan"] } : Site).aliases
      = ["Karlaplan"] ∧
    goContains (goToLower ("Karlaplan")) (goToLower ("Karlaplan")) = true := by
  refine ⟨by decide, rfl, by decide⟩

/-- Claim C3 (amended): `resolveSiteID` returns immediately the first site
whose primary name matches case-insensitively exactly; only if no exact
match exists it collects case-insensitive substring matches against the
primary name only (aliases are not consulted), and the outcome is
three-way: no match is "not found", a unique match resolves to that site's
ID, and several matches give an "ambiguous" outcome enumerating every
candidate's ID and name. -/
theorem resolveSiteID_outcomes (sites : List Site) (name : String) :
    (∀ s, sites.find? (fun t => goToLower t.name == goToLower name) = some s →
      resolveSiteID sites name = ResolveResult.found s.id) ∧
    (sites.find? (fun t => goToLower t.name == goToLower name) = none →
      ((sites.filter (fun s => goContains (goToLower s.name) (goToLower name))).map
          (fun s => (s.id, s.name)) = [] →
        resolveSiteID sites name = ResolveResult.notFound) ∧
      (∀ m, (sites.filter (fun s => goContains (goToLower s.name) (goToLower name))).map
          (fun s => (s.id, s.name)) = [m] →
        resolveSiteID sites name = ResolveResult.found m.1) ∧
      (∀ a b t, (sites.filter (fun s => goContains (goToLower s.name) (goToLower name))).map
          (fun s => (s.id, s.name)) = a :: b :: t →
        resolveSiteID sites name = ResolveResult.ambiguous (a :: b :: t))) := by
  constructor
  · intro s h
    exact resolveTail_found (goToLower name) sites s h []
  · intro hnone
    have hne : ∀ s ∈ sites, ¬(goToLower s.name = goToLower name) := by
      intro s hs heq
      exact List.find?_eq_none.1 hnone s hs (beq_iff_eq.2 heq)
    have hbase := resolveTail_noExact (goToLower name) sites hne []
    rw [List.nil_append] at hbase
    refine ⟨?_, ?_, ?_⟩
    · intro hms
      rw [resolveSiteID, hbase, hms]
      rfl
    · intro m hms
      rw [resolveSiteID, hbase, hms]
      rfl
    · intro a b t hms
      rw [resolveSiteID, hbase, hms]
      rfl

/-- Concrete instance of the amended C3: a case-insensitive exact match on
the primary name resolves immediately to that site's ID. -/
theorem resolveSiteID_outcomes_witness :
    resolveSiteID [{ id := 1, name := "Slussen" }] "SLUSSEN" = ResolveResult.found 1 :=
  (resolveSiteID_outcomes [{ id := 1, name := "Slussen" }] "SLUSSEN").1
    { id := 1, name := "Slussen" } (by decide)

/-- Concrete instance of C8: a deviation whose only message variant is
Swedish is summarized with that Swedish variant. -/
theorem deviation_language_preference_witness :
    summarizeDeviation ["55"]
      { messageVariants := [{ header := "Inställd", details := "Buss 55",
                              scopeAlias := "Linje 55", language := "sv" }],
        scope := some { lines := [{ designation := "55" }] } } =
      some ⟨"55", "Inställd", goTruncate ("Buss 55") 150, "Linje 55"⟩ :=
  (deviation_language_preference ["55"]
      { messageVariants := [{ header := "Inställd", details := "Buss 55",
                              scopeAlias := "Linje 55", language := "sv" }],
        scope := some { lines := [{ designation := "55" }] } }).2.1
    { header := "Inställd", details := "Buss 55", scopeAlias := "Linje 55", language := "sv" }
    rfl rfl { lines := [{ designation := "55" }] } { designation := "55" } rfl (by decide)

end SLCLI
